import Mathlib

/-!
# Verification of the Kurz-AI-Studio run-orchestration engine

Shallow embedding of the orchestration core of the AutoShorts / Kurz AI
Studio backend: the run finite-state machine (`backend/app/orchestrator/fsm.py`,
transition table reproduced in `docs/ARCHITECTURE.md`), the Celery fan-out /
fan-in chord over the asset-generation tasks, and the progress-notification
fabric (`publish_progress` in `backend/app/utils/progress.py`,
`redis_listener`, `broadcast_to_websockets` and the `/ws/{run_id}` endpoint
in `backend/app/main.py`, all quoted verbatim in
`backend/app/data/README.md`).

Python dicts keyed by strings (`runs`, `active_connections`) are embedded as
association lists; WebSocket connections are identified by natural numbers;
send outcomes are abstracted by a predicate `sendOk` saying which sends
succeed; floats (`progress`) are embedded as rationals.
-/

set_option autoImplicit false

namespace KurzStudio

/-- The run states, from `RunState` in `backend/app/orchestrator/fsm.py`
(quoted in `docs/ARCHITECTURE.md`). -/
inductive RunState where
  | INIT
  | PLOT_GENERATION
  | ASSET_GENERATION
  | RENDERING
  | QA
  | END
  | FAILED
deriving DecidableEq, Repr, Fintype

open RunState

/-- The legal-successor table, from `TRANSITIONS` in
`backend/app/orchestrator/fsm.py` (quoted in `docs/ARCHITECTURE.md`). -/
def TRANSITIONS : RunState → List RunState
  | INIT => [PLOT_GENERATION, FAILED]
  | PLOT_GENERATION => [ASSET_GENERATION, FAILED]
  | ASSET_GENERATION => [RENDERING, FAILED]
  | RENDERING => [QA, FAILED]
  | QA => [END, PLOT_GENERATION, FAILED]
  | END => []
  | FAILED => []

/-- The Job Record: identity is kept outside, the mutable payload is the
state, the visited-state history, the progress fraction, the log lines, the
artifact map and the retry counter (spec §3, `docs/DATA_SCHEMA.md`). -/
structure Job where
  state : RunState
  history : List RunState
  progress : ℚ
  logs : List String
  artifacts : List (String × String)
  retry_count : Nat
deriving DecidableEq, Repr

/-- The FSM error raised on an attempt to take an edge that is not in the
transition graph. -/
inductive FsmError where
  | IllegalTransition
deriving DecidableEq, Repr

/-- Modelled from the spec: `fsm.py` itself is not in the source tree, only
its `TRANSITIONS` table is; the spec's contract for `transition(job, target)`
is that it succeeds only if `target` is in the legal-successor set of
`job.state`, otherwise fails with an `IllegalTransition` error leaving the
job unchanged, and on success updates `state` and appends to `history`. -/
def transition (job : Job) (target : RunState) : Except FsmError Job :=
  if target ∈ TRANSITIONS job.state then
    .ok { job with state := target, history := job.history ++ [target] }
  else
    .error .IllegalTransition

/-- A second successor relation written from the spec's own words (§4.1):
the linear chain, the two extra QA edges, every non-terminal to `FAILED`,
and no edge out of the terminals. Used to check the code's table against
the spec's description. -/
def specSuccessors : RunState → List RunState
  | INIT => [PLOT_GENERATION] ++ [FAILED]
  | PLOT_GENERATION => [ASSET_GENERATION] ++ [FAILED]
  | ASSET_GENERATION => [RENDERING] ++ [FAILED]
  | RENDERING => [QA] ++ [FAILED]
  | QA => [END] ++ [PLOT_GENERATION] ++ [FAILED]
  | END => []
  | FAILED => []

/-- The job record created on `POST /api/runs`: initial state `INIT`,
history starting at `INIT` (cf. the `history` arrays in `docs/API.md`),
zero progress, empty logs and artifacts, no retries yet. -/
def initJob : Job :=
  { state := INIT, history := [INIT], progress := 0, logs := [],
    artifacts := [], retry_count := 0 }

/-- A transition attempt as the coordinator performs it: an illegal attempt
raises `IllegalTransition`, which leaves the job record as it was. -/
def tryTransition (job : Job) (target : RunState) : Job :=
  match transition job target with
  | .ok j' => j'
  | .error _ => job

/-- Modelled from the spec: the QA task's failure handling (`qa_task` is not
in the source tree). Spec §4.1/§4.3: the `QA → PLOT_GENERATION` retry edge is
gated by `retry_count < MAX_RETRIES` and bumps the counter; once the budget
is exhausted a QA failure instead forces `QA → FAILED` with a reason
appended to `logs`. -/
def qaFailStep (maxRetries : Nat) (job : Job) : Job :=
  if job.state = QA then
    if job.retry_count < maxRetries then
      { tryTransition job PLOT_GENERATION with retry_count := job.retry_count + 1 }
    else
      { tryTransition job FAILED with
          logs := job.logs ++ ["QA failed: retry budget exceeded"] }
  else job

/-- The stage-completion events the Pipeline Coordinator reacts to
(spec §4.3): each linear stage finishing, the fan-in barrier releasing,
the two QA outcomes, and a stage failure. -/
inductive CoordEvent where
  | start
  | planDone
  | assetsDone
  | renderDone
  | qaPass
  | qaFail
  | stageFail
deriving DecidableEq, Repr

/-- Modelled from the spec: the Pipeline Coordinator's reaction to one
stage-completion event (spec §4.3). A stage's completion only advances the
FSM from that stage's own state; QA failure is handled by `qaFailStep`; a
stage failure takes the edge to `FAILED` when one exists. -/
def coordStep (maxRetries : Nat) (job : Job) : CoordEvent → Job
  | .start => if job.state = INIT then tryTransition job PLOT_GENERATION else job
  | .planDone =>
      if job.state = PLOT_GENERATION then tryTransition job ASSET_GENERATION else job
  | .assetsDone =>
      if job.state = ASSET_GENERATION then tryTransition job RENDERING else job
  | .renderDone => if job.state = RENDERING then tryTransition job QA else job
  | .qaPass => if job.state = QA then tryTransition job END else job
  | .qaFail => qaFailStep maxRetries job
  | .stageFail => tryTransition job FAILED

/-- The job record reached from creation by a finite sequence of
coordinator events. -/
def runEvents (maxRetries : Nat) (evs : List CoordEvent) : Job :=
  evs.foldl (coordStep maxRetries) initJob

/-- The three fanned-out asset-generation units, from the Celery composition
`chord(group(designer_task, composer_task, voice_task))(director_task)` in
`docs/ARCHITECTURE.md` (also quoted in the interview notes). -/
inductive AssetUnit where
  | designer
  | composer
  | voice
deriving DecidableEq, Repr, Fintype

/-- The statically-known fan-out set of the `ASSET_GENERATION` stage. -/
def fanoutUnits : List AssetUnit := [.designer, .composer, .voice]

/-- Modelled from the spec: the fan-in barrier's per-job state — which units
have reported completion so far and whether the barrier has released.
Celery's chord implementation is an external library, not in the source
tree; spec §4.3 gives its contract. -/
structure BarrierState where
  completed : List AssetUnit
  released : Bool
deriving DecidableEq, Repr

/-- Barrier state when the fan-out is launched: nothing completed,
not released. -/
def initialBarrier : BarrierState := { completed := [], released := false }

/-- Modelled from the spec: one completion signal `(unit, succeeded)`
arriving at the fan-in barrier (spec §4.3). The unit is recorded whether it
succeeded or failed; the barrier releases (the returned flag) exactly when,
with this signal, every fanned-out unit has reported and the barrier had not
released before; a signal arriving after release has no effect. -/
def barrierSignal (st : BarrierState) (sig : AssetUnit × Bool) :
    BarrierState × Bool :=
  if st.released then (st, false)
  else
    let completed' :=
      if sig.1 ∈ st.completed then st.completed else st.completed ++ [sig.1]
    if fanoutUnits.all (fun u => decide (u ∈ completed')) then
      ({ completed := completed', released := true }, true)
    else
      ({ completed := completed', released := false }, false)

/-- Process a finite arrival sequence of completion signals; returns the
final barrier state and how many times the barrier released. -/
def processSignals (st : BarrierState) :
    List (AssetUnit × Bool) → BarrierState × Nat
  | [] => (st, 0)
  | sig :: rest =>
      let r := barrierSignal st sig
      let rr := processSignals r.1 rest
      (rr.1, (if r.2 then 1 else 0) + rr.2)

/-- Releasing the barrier triggers the next linear stage: the director task
transitions the job `ASSET_GENERATION → RENDERING` (`docs/ARCHITECTURE.md`
run flow, step 7). -/
def chordRun (job : Job) (sigs : List (AssetUnit × Bool)) : Job :=
  if (processSignals initialBarrier sigs).1.released then
    tryTransition job RENDERING
  else job

/-- A live WebSocket connection; Python compares connection objects by
identity, embedded here as a numeric id. -/
abbrev Conn := Nat

/-- Lookup in an association list embedding a string-keyed Python dict
(`key in d` / `d[key]`). -/
def lookupA {α : Type} : List (String × α) → String → Option α
  | [], _ => none
  | (k, v) :: rest, key => if k = key then some v else lookupA rest key

/-- In-place value update of a string-keyed Python dict entry
(`d[key] = f(d[key])` guarded by `key in d`): a missing key leaves the
association list unchanged — no entry is ever created. -/
def updateA {α : Type} (f : α → α) :
    List (String × α) → String → List (String × α)
  | [], _ => []
  | (k, v) :: rest, key =>
      if k = key then (k, f v) :: updateA f rest key
      else (k, v) :: updateA f rest key

/-- The server-to-client WebSocket messages (`initial_state`, `progress`,
`pong`) of `backend/app/main.py`, per `backend/app/data/README.md`. -/
inductive WsMsg where
  | initial_state (state : String) (progress : ℚ) (logs : List String)
  | progress (run_id : String) (state : Option String) (progress : Option ℚ)
      (message : String)
  | pong
deriving DecidableEq, Repr

/-- The send loop of `broadcast_to_websockets`: attempt
`await ws.send_json(message)` for every registered connection in order; a
raised send error is caught and the connection collected into
`disconnected`. Returns (successfully sent, disconnected), both in list
order; `sendOk` abstracts which sends succeed. -/
def sendLoop (sendOk : Conn → Bool) : List Conn → List Conn × List Conn
  | [] => ([], [])
  | ws :: rest =>
      let r := sendLoop sendOk rest
      if sendOk ws then (ws :: r.1, r.2) else (r.1, ws :: r.2)

/-- `broadcast_to_websockets(run_id, message)` from `backend/app/main.py`
(quoted in `backend/app/data/README.md`): if `run_id` has registered
connections, try to send the message to each; each connection whose send
failed is then removed from the registry entry with `list.remove` (first
occurrence, embedded as `List.erase`). Returns the updated registry and the
(connection, message) sends that succeeded. -/
def broadcast_to_websockets (sendOk : Conn → Bool)
    (active : List (String × List Conn)) (run_id : String) (message : WsMsg) :
    List (String × List Conn) × List (Conn × WsMsg) :=
  match lookupA active run_id with
  | none => (active, [])
  | some websockets =>
      let r := sendLoop sendOk websockets
      let websockets' := r.2.foldl (fun l ws => l.erase ws) websockets
      (updateA (fun _ => websockets') active run_id,
       r.1.map (fun ws => (ws, message)))

/-- The `runs[run_id]` record kept by the FastAPI process: current state
string, progress fraction and log lines, as sent in `initial_state`. -/
structure RunRecord where
  state : String
  progress : ℚ
  logs : List String
deriving DecidableEq, Repr

/-- The connection phase of `websocket_endpoint` (`/ws/{run_id}` in
`backend/app/main.py`, quoted in `backend/app/data/README.md`): accept,
register the connection under `run_id` (creating the registry entry if
missing), and, when `run_id` is a key of `runs`, send one `initial_state`
message with the record's current state, progress and logs. Returns the
updated registry and the messages sent to the new connection. -/
def websocket_endpoint_connect (runs : List (String × RunRecord))
    (active : List (String × List Conn)) (run_id : String) (ws : Conn) :
    List (String × List Conn) × List WsMsg :=
  let active' :=
    match lookupA active run_id with
    | some _ => updateA (fun conns => conns ++ [ws]) active run_id
    | none => active ++ [(run_id, [ws])]
  match lookupA runs run_id with
  | some r => (active', [WsMsg.initial_state r.state r.progress r.logs])
  | none => (active', [])

/-- The pub/sub event of `publish_progress`: `run_id` always present,
`state`, `progress` and `log` each independently optional. -/
structure ProgressMsg where
  run_id : String
  state : Option String
  progress : Option ℚ
  log : Option String
deriving DecidableEq, Repr

/-- `publish_progress(run_id, state=None, progress=None, log=None)` from
`backend/app/utils/progress.py` (quoted in `backend/app/data/README.md`):
builds `{"run_id": run_id}`, adds `state` under Python truthiness
(`if state:` — both `None` and `""` are falsy), adds `progress` under
`if progress is not None:`, adds `log` under `if log:`, then publishes the
message on the single channel `"autoshorts:progress"`. The function is
total: there is no failure path. -/
def publish_progress (run_id : String) (state : Option String)
    (progress : Option ℚ) (log : Option String) : String × ProgressMsg :=
  ("autoshorts:progress",
   { run_id := run_id
     state :=
       match state with
       | some s => if s = "" then none else some s
       | none => none
     progress := progress
     log :=
       match log with
       | some s => if s = "" then none else some s
       | none => none })

/-- `client.publish(channel, message)` viewed as appending the event to the
channel's stream; the call inspects no subscriber state. -/
def publishToBus (bus : List (String × ProgressMsg)) (run_id : String)
    (state : Option String) (progress : Option ℚ) (log : Option String) :
    List (String × ProgressMsg) :=
  bus ++ [publish_progress run_id state progress log]

/-- A bus message as `redis_listener` reads it with `data.get(...)`: every
field, `run_id` included, may be absent. -/
structure EventData where
  run_id : Option String
  state : Option String
  progress : Option ℚ
  log : Option String
deriving DecidableEq, Repr

/-- The in-memory record update inside `redis_listener`
(`backend/app/data/README.md`, the `if run_id in runs:` body): `state` and
`progress` are overwritten only when present in the message; a present
`log` is appended to `logs`. -/
def applyEvent (r : RunRecord) (d : EventData) : RunRecord :=
  let r1 :=
    match d.state with
    | some s => { r with state := s }
    | none => r
  let r2 :=
    match d.progress with
    | some p => { r1 with progress := p }
    | none => r1
  match d.log with
  | some l => { r2 with logs := r2.logs ++ [l] }
  | none => r2

/-- One iteration of `redis_listener`'s message loop
(`backend/app/data/README.md`): read `run_id` with `data.get("run_id")`;
when it is absent (or falsy) do nothing; otherwise update `runs[run_id]`
per-field only when the key exists, and in every case broadcast a
`progress` WebSocket message to the connections registered under `run_id`.
Returns the new `runs`, the new registry and the successful sends. -/
def redis_listener_step (sendOk : Conn → Bool)
    (runs : List (String × RunRecord)) (active : List (String × List Conn))
    (d : EventData) :
    List (String × RunRecord) × List (String × List Conn) ×
      List (Conn × WsMsg) :=
  match d.run_id with
  | none => (runs, active, [])
  | some rid =>
      if rid = "" then (runs, active, [])
      else
        let runs' := updateA (fun r => applyEvent r d) runs rid
        let b := broadcast_to_websockets sendOk active rid
          (WsMsg.progress rid d.state d.progress (d.log.getD ""))
        (runs', b.1, b.2)

end KurzStudio

namespace KurzStudio

open RunState

lemma tryTransition_retry_count (job : Job) (target : RunState) :
    (tryTransition job target).retry_count = job.retry_count := by
  unfold tryTransition transition
  by_cases h : target ∈ TRANSITIONS job.state <;> simp [h]

lemma coordStep_retry_bound (maxRetries : Nat) (job : Job) (ev : CoordEvent)
    (h : job.retry_count ≤ maxRetries) :
    (coordStep maxRetries job ev).retry_count ≤ maxRetries := by
  cases ev with
  | qaFail =>
      simp only [coordStep, qaFailStep]
      split
      · split
        · next hlt => simp; omega
        · simpa [tryTransition_retry_count] using h
      · exact h
  | stageFail => simpa [coordStep, tryTransition_retry_count] using h
  | start =>
      simp only [coordStep]; split
      · simpa [tryTransition_retry_count] using h
      · exact h
  | planDone =>
      simp only [coordStep]; split
      · simpa [tryTransition_retry_count] using h
      · exact h
  | assetsDone =>
      simp only [coordStep]; split
      · simpa [tryTransition_retry_count] using h
      · exact h
  | renderDone =>
      simp only [coordStep]; split
      · simpa [tryTransition_retry_count] using h
      · exact h
  | qaPass =>
      simp only [coordStep]; split
      · simpa [tryTransition_retry_count] using h
      · exact h

lemma foldl_coordStep_retry_bound (maxRetries : Nat) (evs : List CoordEvent)
    (job : Job) (h : job.retry_count ≤ maxRetries) :
    (evs.foldl (coordStep maxRetries) job).retry_count ≤ maxRetries := by
  induction evs generalizing job with
  | nil => simpa using h
  | cons ev rest ih => exact ih _ (coordStep_retry_bound _ _ _ h)

lemma runEvents_retry_bound (maxRetries : Nat) (evs : List CoordEvent) :
    (runEvents maxRetries evs).retry_count ≤ maxRetries :=
  foldl_coordStep_retry_bound _ _ _ (by simp [initJob])

lemma tryTransition_of_mem (job : Job) (target : RunState)
    (h : target ∈ TRANSITIONS job.state) :
    tryTransition job target
      = { job with state := target, history := job.history ++ [target] } := by
  simp [tryTransition, transition, h]

/-- C2: the `QA → PLOT_GENERATION` retry edge fires only while
`retry_count < maxRetries` and increments the counter; at
`retry_count = maxRetries` a QA failure instead forces `QA → FAILED` with a
reason appended to `logs`; and every job record reachable from creation by
coordinator events satisfies `retry_count ≤ maxRetries`. -/
theorem qa_retry_budget (maxRetries : Nat) (evs : List CoordEvent) (job : Job)
    (hQA : job.state = QA) :
    (runEvents maxRetries evs).retry_count ≤ maxRetries ∧
    (job.retry_count < maxRetries →
      (qaFailStep maxRetries job).state = PLOT_GENERATION ∧
      (qaFailStep maxRetries job).retry_count = job.retry_count + 1 ∧
      (qaFailStep maxRetries job).history = job.history ++ [PLOT_GENERATION]) ∧
    (job.retry_count = maxRetries →
      (qaFailStep maxRetries job).state = FAILED ∧
      (qaFailStep maxRetries job).retry_count = job.retry_count ∧
      (qaFailStep maxRetries job).logs
        = job.logs ++ ["QA failed: retry budget exceeded"]) ∧
    ((qaFailStep maxRetries job).state = PLOT_GENERATION →
      job.retry_count < maxRetries) := by
  have hmemP : PLOT_GENERATION ∈ TRANSITIONS QA := by decide
  have hmemF : FAILED ∈ TRANSITIONS QA := by decide
  refine ⟨runEvents_retry_bound _ _, ?_, ?_, ?_⟩
  · intro hlt
    simp [qaFailStep, hQA, hlt, tryTransition, transition, hmemP]
  · intro heq
    have hnlt : ¬ job.retry_count < maxRetries := by omega
    simp [qaFailStep, hQA, hnlt, tryTransition, transition, hmemF]
  · intro hst
    by_contra hge
    simp [qaFailStep, hQA, hge, tryTransition, transition, hmemF] at hst

/-- Witness for C2: a concrete QA job under the retry bound takes the
retry edge and bumps the counter. -/
theorem qa_retry_budget_witness :
    (qaFailStep 1 ⟨RunState.QA, [], 0, [], [], 0⟩).state
        = RunState.PLOT_GENERATION ∧
    (qaFailStep 1 ⟨RunState.QA, [], 0, [], [], 0⟩).retry_count = 1 := by
  have h := qa_retry_budget 1 [] ⟨RunState.QA, [], 0, [], [], 0⟩ rfl
  have h2 := h.2.1 (by decide)
  exact ⟨h2.1, h2.2.1⟩

/-- C3: `END` and `FAILED` are absorbing: their successor sets are empty,
every transition attempt out of them fails with `IllegalTransition`, and no
coordinator event changes such a job record (in particular nothing is ever
appended to `history` again). -/
theorem terminal_absorbing (job : Job) (target : RunState) (maxRetries : Nat)
    (ev : CoordEvent) (h : job.state = END ∨ job.state = FAILED) :
    TRANSITIONS job.state = [] ∧
    transition job target = .error .IllegalTransition ∧
    coordStep maxRetries job ev = job ∧
    (coordStep maxRetries job ev).history = job.history := by
  have hempty : TRANSITIONS job.state = [] := by
    rcases h with h | h <;> rw [h] <;> rfl
  have htrans : transition job target = .error .IllegalTransition := by
    simp [transition, hempty]
  have htry : ∀ t, tryTransition job t = job := fun t => by
    simp [tryTransition, transition, hempty]
  have hstep : coordStep maxRetries job ev = job := by
    rcases h with h | h <;> cases ev <;> simp [coordStep, qaFailStep, h, htry]
  exact ⟨hempty, htrans, hstep, by rw [hstep]⟩

/-- Witness for C3: a finished job rejects a transition back to planning. -/
theorem terminal_absorbing_witness :
    TRANSITIONS RunState.END = [] ∧
    transition ⟨RunState.END, [], 1, [], [], 0⟩ RunState.PLOT_GENERATION
      = .error .IllegalTransition := by
  have h := terminal_absorbing ⟨RunState.END, [], 1, [], [], 0⟩
    RunState.PLOT_GENERATION 3 .stageFail (Or.inl rfl)
  exact ⟨h.1, h.2.1⟩

lemma mem_insertUnit (c : List AssetUnit) (a u : AssetUnit) :
    (u ∈ if a ∈ c then c else c ++ [a]) ↔ (u ∈ c ∨ u = a) := by
  by_cases h : a ∈ c
  · simp only [if_pos h]
    constructor
    · exact Or.inl
    · rintro (hu | rfl)
      · exact hu
      · exact h
  · simp [h, List.mem_append]

lemma processSignals_spec (sigs : List (AssetUnit × Bool)) (st : BarrierState)
    (hinv : st.released = false → ¬ ∀ u ∈ fanoutUnits, u ∈ st.completed) :
    ((processSignals st sigs).2
        = if st.released = false ∧
             ∀ u ∈ fanoutUnits, u ∈ st.completed ∨ u ∈ sigs.map Prod.fst
          then 1 else 0) ∧
    ((processSignals st sigs).1.released = true ↔
        (st.released = true ∨
          ∀ u ∈ fanoutUnits, u ∈ st.completed ∨ u ∈ sigs.map Prod.fst)) := by
  induction sigs generalizing st with
  | nil =>
      by_cases hr : st.released
      · simp [processSignals, hr]
      · have hna := hinv (by simpa using hr)
        simp [processSignals, hr, hna]
  | cons sig rest ih =>
      by_cases hr : st.released
      · have hb : barrierSignal st sig = (st, false) := by
          simp [barrierSignal, hr]
        have hrest := ih st hinv
        constructor
        · simp [processSignals, hb, hrest.1, hr]
        · simp [processSignals, hb, hrest.2, hr]
      · have hrf : st.released = false := by simpa using hr
        have hmem : ∀ u,
            (u ∈ if sig.1 ∈ st.completed then st.completed
                 else st.completed ++ [sig.1]) ↔
              (u ∈ st.completed ∨ u = sig.1) := fun u => mem_insertUnit _ _ _
        by_cases hall : ∀ u ∈ fanoutUnits,
            u ∈ (if sig.1 ∈ st.completed then st.completed
                 else st.completed ++ [sig.1])
        · have hallb : (fanoutUnits.all fun u =>
              decide (u ∈ if sig.1 ∈ st.completed then st.completed
                          else st.completed ++ [sig.1])) = true := by
            simp only [List.all_eq_true, decide_eq_true_eq]
            exact hall
          have hb : barrierSignal st sig =
              ({ completed :=
                   if sig.1 ∈ st.completed then st.completed
                   else st.completed ++ [sig.1],
                 released := true }, true) := by
            simp [barrierSignal, hrf, hallb]
          have hrest := ih
            { completed :=
                if sig.1 ∈ st.completed then st.completed
                else st.completed ++ [sig.1],
              released := true }
            (by intro hcontra; simp at hcontra)
          have hcov : ∀ u ∈ fanoutUnits,
              u ∈ st.completed ∨ u ∈ (sig :: rest).map Prod.fst := by
            intro u hu
            rcases (hmem u).1 (hall u hu) with h1 | h2
            · exact Or.inl h1
            · exact Or.inr (by simp [h2])
          constructor
          · have h0 : (processSignals
                { completed :=
                    if sig.1 ∈ st.completed then st.completed
                    else st.completed ++ [sig.1],
                  released := true } rest).2 = 0 := by
              rw [hrest.1]; simp
            have hfin : (processSignals st (sig :: rest)).2
                = 1 + (processSignals
                    { completed :=
                        if sig.1 ∈ st.completed then st.completed
                        else st.completed ++ [sig.1],
                      released := true } rest).2 := by
              simp [processSignals, hb]
            rw [hfin, h0, if_pos (And.intro hrf hcov)]
          · have h1 : (processSignals
                { completed :=
                    if sig.1 ∈ st.completed then st.completed
                    else st.completed ++ [sig.1],
                  released := true } rest).1.released = true := by
              rw [hrest.2]; simp
            have hfin : (processSignals st (sig :: rest)).1
                = (processSignals
                    { completed :=
                        if sig.1 ∈ st.completed then st.completed
                        else st.completed ++ [sig.1],
                      released := true } rest).1 := by
              simp [processSignals, hb]
            rw [hfin]
            exact ⟨fun _ => Or.inr hcov, fun _ => h1⟩
        · have hallb : (fanoutUnits.all fun u =>
              decide (u ∈ if sig.1 ∈ st.completed then st.completed
                          else st.completed ++ [sig.1])) = false := by
            simp only [List.all_eq_false, decide_eq_true_eq]
            push_neg at hall
            obtain ⟨u, hu, hnu⟩ := hall
            exact ⟨u, hu, by simpa using hnu⟩
          have hb : barrierSignal st sig =
              ({ completed :=
                   if sig.1 ∈ st.completed then st.completed
                   else st.completed ++ [sig.1],
                 released := false }, false) := by
            simp [barrierSignal, hrf, hallb]
          have hrest := ih
            { completed :=
                if sig.1 ∈ st.completed then st.completed
                else st.completed ++ [sig.1],
              released := false }
            (fun _ => hall)
          have hcov : (∀ u ∈ fanoutUnits,
              u ∈ (if sig.1 ∈ st.completed then st.completed
                   else st.completed ++ [sig.1]) ∨ u ∈ rest.map Prod.fst) ↔
              (∀ u ∈ fanoutUnits,
                u ∈ st.completed ∨ u ∈ (sig :: rest).map Prod.fst) := by
            simp only [List.map_cons, List.mem_cons]
            constructor
            · intro h u hu
              rcases h u hu with hc | hm
              · rcases (hmem u).1 hc with h1 | h2
                · exact Or.inl h1
                · exact Or.inr (Or.inl h2)
              · exact Or.inr (Or.inr hm)
            · intro h u hu
              rcases h u hu with h1 | h2 | h3
              · exact Or.inl ((hmem u).2 (Or.inl h1))
              · exact Or.inl ((hmem u).2 (Or.inr h2))
              · exact Or.inr h3
          have hcond : (({ completed :=
                             if sig.1 ∈ st.completed then st.completed
                             else st.completed ++ [sig.1],
                           released := false } : BarrierState).released = false ∧
              ∀ u ∈ fanoutUnits,
                u ∈ ({ completed :=
                         if sig.1 ∈ st.completed then st.completed
                         else st.completed ++ [sig.1],
                       released := false } : BarrierState).completed ∨
                  u ∈ rest.map Prod.fst) ↔
              (st.released = false ∧
                ∀ u ∈ fanoutUnits,
                  u ∈ st.completed ∨ u ∈ (sig :: rest).map Prod.fst) := by
            constructor
            · rintro ⟨-, h⟩; exact ⟨hrf, hcov.1 h⟩
            · rintro ⟨-, h⟩; exact ⟨rfl, hcov.2 h⟩
          constructor
          · have hfin : (processSignals st (sig :: rest)).2
                = (processSignals
                    { completed :=
                        if sig.1 ∈ st.completed then st.completed
                        else st.completed ++ [sig.1],
                      released := false } rest).2 := by
              simp [processSignals, hb]
            rw [hfin, hrest.1, if_congr hcond rfl rfl]
          · have hfin : (processSignals st (sig :: rest)).1
                = (processSignals
                    { completed :=
                        if sig.1 ∈ st.completed then st.completed
                        else st.completed ++ [sig.1],
                      released := false } rest).1 := by
              simp [processSignals, hb]
            rw [hfin, hrest.2]
            constructor
            · rintro (h | h)
              · simp at h
              · exact Or.inr (hcov.1 h)
            · rintro (h | h)
              · rw [hrf] at h; simp at h
              · exact Or.inr (hcov.2 h)

/-- C4: starting from the launch state, the fan-in barrier over the
designer/composer/voice units releases exactly once, precisely when every
fanned-out unit has reported completion (success or failure), in whatever
order the signals arrive; a signal after release has no effect; and the
release (and only the release) drives the job from `ASSET_GENERATION` to
`RENDERING`. -/
theorem chord_fanin_barrier (sigs : List (AssetUnit × Bool))
    (st : BarrierState) (sig : AssetUnit × Bool) (job : Job)
    (hjob : job.state = ASSET_GENERATION) :
    ((processSignals initialBarrier sigs).2
        = if ∀ u ∈ fanoutUnits, u ∈ sigs.map Prod.fst then 1 else 0) ∧
    (st.released = true → barrierSignal st sig = (st, false)) ∧
    ((∀ u ∈ fanoutUnits, u ∈ sigs.map Prod.fst) →
        (chordRun job sigs).state = RENDERING ∧
        (chordRun job sigs).history = job.history ++ [RENDERING]) ∧
    (¬ (∀ u ∈ fanoutUnits, u ∈ sigs.map Prod.fst) → chordRun job sigs = job) := by
  have hinv : initialBarrier.released = false →
      ¬ ∀ u ∈ fanoutUnits, u ∈ initialBarrier.completed := fun _ => by decide
  have hspec := processSignals_spec sigs initialBarrier hinv
  have hrel : (processSignals initialBarrier sigs).1.released = true ↔
      ∀ u ∈ fanoutUnits, u ∈ sigs.map Prod.fst := by
    rw [hspec.2]; simp [initialBarrier]
  refine ⟨?_, ?_, ?_, ?_⟩
  · rw [hspec.1]; simp [initialBarrier]
  · intro h; simp [barrierSignal, h]
  · intro hcov
    have hR : RENDERING ∈ TRANSITIONS job.state := by rw [hjob]; decide
    have : chordRun job sigs = tryTransition job RENDERING := by
      simp [chordRun, hrel.2 hcov]
    rw [this, tryTransition_of_mem _ _ hR]
    exact ⟨rfl, rfl⟩
  · intro hncov
    have : (processSignals initialBarrier sigs).1.released = false := by
      rcases Bool.eq_false_or_eq_true (processSignals initialBarrier sigs).1.released
        with h | h
      · exact absurd (hrel.1 h) hncov
      · exact h
    simp [chordRun, this]

/-- Witness for C4: the three units completing in the order composer, voice
(failed), designer release the barrier exactly once and drive a concrete
`ASSET_GENERATION` job to `RENDERING`. -/
theorem chord_fanin_barrier_witness :
    (processSignals initialBarrier
        [(AssetUnit.composer, true), (AssetUnit.voice, false),
         (AssetUnit.designer, true)]).2 = 1 ∧
    (chordRun ⟨RunState.ASSET_GENERATION, [], 0, [], [], 0⟩
        [(AssetUnit.composer, true), (AssetUnit.voice, false),
         (AssetUnit.designer, true)]).state = RunState.RENDERING := by
  have h := chord_fanin_barrier
    [(AssetUnit.composer, true), (AssetUnit.voice, false),
     (AssetUnit.designer, true)]
    initialBarrier (AssetUnit.designer, true)
    ⟨RunState.ASSET_GENERATION, [], 0, [], [], 0⟩ rfl
  refine ⟨?_, (h.2.2.1 (by decide)).1⟩
  rw [h.1]
  simp [fanoutUnits]

/-- C1: `transition(job, target)` succeeds exactly on table edges, fails with
`IllegalTransition` otherwise leaving the record unchanged, on success sets
`state` and appends to `history`, and the table agrees with the spec's
successor description. -/
theorem transition_contract (job : Job) (target : RunState) :
    (∀ s t : RunState, t ∈ TRANSITIONS s ↔ t ∈ specSuccessors s) ∧
    (match transition job target with
      | .ok j' =>
          target ∈ TRANSITIONS job.state ∧
          j'.state = target ∧
          j'.history = job.history ++ [target] ∧
          j'.progress = job.progress ∧
          j'.logs = job.logs ∧
          j'.artifacts = job.artifacts ∧
          j'.retry_count = job.retry_count
      | .error e =>
          target ∉ TRANSITIONS job.state ∧ e = FsmError.IllegalTransition) := by
  refine ⟨by decide, ?_⟩
  unfold transition
  by_cases h : target ∈ TRANSITIONS job.state
  · simp [h]
  · simp [h]

/-- Witness for C1: a legal edge (`INIT → PLOT_GENERATION`) taken on a
concrete job record. -/
theorem transition_contract_witness :
    (match transition ⟨RunState.INIT, [RunState.INIT], 0, [], [], 0⟩
        RunState.PLOT_GENERATION with
      | .ok j' => j'.state = RunState.PLOT_GENERATION
      | .error _ => False) := by
  have h := (transition_contract ⟨RunState.INIT, [RunState.INIT], 0, [], [], 0⟩
    RunState.PLOT_GENERATION).2
  exact h.2.1

lemma sendLoop_eq (f : Conn → Bool) (l : List Conn) :
    sendLoop f l = (l.filter f, l.filter (fun x => !(f x))) := by
  induction l with
  | nil => rfl
  | cons ws rest ih =>
      by_cases h : f ws <;> simp [sendLoop, ih, List.filter_cons, h]

lemma foldl_erase_of_not_mem (a : Conn) (d : List Conn) (t : List Conn)
    (h : a ∉ d) :
    d.foldl (fun l ws => l.erase ws) (a :: t)
      = a :: d.foldl (fun l ws => l.erase ws) t := by
  induction d generalizing t with
  | nil => rfl
  | cons b d ih =>
      have hba : b ≠ a := fun hh => h (by simp [hh])
      have hd : a ∉ d := fun hh => h (by simp [hh])
      simp only [List.foldl_cons]
      rw [List.erase_cons_tail (by simpa using fun hh => hba hh.symm)]
      exact ih _ hd

lemma foldl_erase_filter (q : Conn → Bool) (l : List Conn) (h : l.Nodup) :
    (l.filter (fun x => !(q x))).foldl (fun acc ws => acc.erase ws) l
      = l.filter q := by
  induction l with
  | nil => rfl
  | cons a t ih =>
      have hat : a ∉ t := (List.nodup_cons.mp h).1
      have ht : t.Nodup := (List.nodup_cons.mp h).2
      by_cases hq : q a
      · have hfneg : (a :: t).filter (fun x => !(q x))
            = t.filter (fun x => !(q x)) := by
          simp [List.filter_cons, hq]
        have hfpos : (a :: t).filter q = a :: t.filter q := by
          simp [List.filter_cons, hq]
        have had : a ∉ t.filter (fun x => !(q x)) :=
          fun hmem => hat (List.mem_of_mem_filter hmem)
        rw [hfneg, hfpos, foldl_erase_of_not_mem _ _ _ had, ih ht]
      · have hq' : q a = false := by simpa using hq
        have hfneg : (a :: t).filter (fun x => !(q x))
            = a :: t.filter (fun x => !(q x)) := by
          simp [List.filter_cons, hq']
        have hfpos : (a :: t).filter q = t.filter q := by
          simp [List.filter_cons, hq']
        rw [hfneg, hfpos]
        simp only [List.foldl_cons, List.erase_cons_head]
        exact ih ht

lemma lookupA_updateA_self {α : Type} (f : α → α) (reg : List (String × α))
    (k : String) (v : α) (h : lookupA reg k = some v) :
    lookupA (updateA f reg k) k = some (f v) := by
  induction reg with
  | nil => cases h
  | cons e rest ih =>
      obtain ⟨k', v'⟩ := e
      by_cases hk : k' = k
      · simp only [lookupA, updateA, if_pos hk] at h ⊢
        simp only [Option.some.injEq] at h
        rw [h]
      · simp only [lookupA, updateA, if_neg hk] at h ⊢
        exact ih h

lemma lookupA_updateA_other {α : Type} (f : α → α) (reg : List (String × α))
    (key k2 : String) (h : k2 ≠ key) :
    lookupA (updateA f reg key) k2 = lookupA reg k2 := by
  induction reg with
  | nil => rfl
  | cons e rest ih =>
      obtain ⟨k', v'⟩ := e
      by_cases hk : k' = key
      · have hk2 : ¬ (k' = k2) := fun hh => h (hh ▸ hk)
        simp only [updateA, if_pos hk, lookupA, if_neg hk2, ih]
      · simp only [updateA, if_neg hk, lookupA]
        by_cases hk2 : k' = k2
        · simp [hk2]
        · simp [hk2, ih]

lemma updateA_keys {α : Type} (f : α → α) (reg : List (String × α))
    (key : String) :
    (updateA f reg key).map Prod.fst = reg.map Prod.fst := by
  induction reg with
  | nil => rfl
  | cons e rest ih =>
      obtain ⟨k', v'⟩ := e
      by_cases hk : k' = key <;> simp [updateA, hk, ih]

lemma updateA_of_none {α : Type} (f : α → α) (reg : List (String × α))
    (key : String) (h : lookupA reg key = none) :
    updateA f reg key = reg := by
  induction reg with
  | nil => rfl
  | cons e rest ih =>
      obtain ⟨k', v'⟩ := e
      by_cases hk : k' = key
      · simp [lookupA, hk] at h
      · simp only [lookupA, if_neg hk] at h
        simp [updateA, hk, ih h]

/-- C5: broadcasting to a job id's registered connections delivers the
message to every connection whose send succeeds, removes exactly the
connections whose send failed, and touches no other job id's registry entry
(the function does not touch the job record at all, so a send failure can
never reach the job's own state). -/
theorem broadcast_isolation (sendOk : Conn → Bool)
    (active : List (String × List Conn)) (run_id : String) (message : WsMsg)
    (conns : List Conn) (hget : lookupA active run_id = some conns)
    (hnd : conns.Nodup) :
    lookupA (broadcast_to_websockets sendOk active run_id message).1 run_id
        = some (conns.filter sendOk) ∧
    (broadcast_to_websockets sendOk active run_id message).2
        = (conns.filter sendOk).map (fun ws => (ws, message)) ∧
    (∀ ws, ws ∈ conns → sendOk ws = true →
        (ws, message) ∈ (broadcast_to_websockets sendOk active run_id message).2) ∧
    (∀ rid, rid ≠ run_id →
        lookupA (broadcast_to_websockets sendOk active run_id message).1 rid
          = lookupA active rid) := by
  have herase : (conns.filter (fun x => !(sendOk x))).foldl
      (fun l ws => l.erase ws) conns = conns.filter sendOk :=
    foldl_erase_filter sendOk conns hnd
  have hb : broadcast_to_websockets sendOk active run_id message
      = (updateA (fun _ => conns.filter sendOk) active run_id,
         (conns.filter sendOk).map (fun ws => (ws, message))) := by
    simp only [broadcast_to_websockets, hget, sendLoop_eq, herase]
  refine ⟨?_, ?_, ?_, ?_⟩
  · rw [hb]
    exact lookupA_updateA_self _ _ _ _ hget
  · rw [hb]
  · intro ws hws hok
    rw [hb]
    simp only [List.mem_map, List.mem_filter]
    exact ⟨ws, ⟨hws, hok⟩, rfl⟩
  · intro rid hne
    rw [hb]
    exact lookupA_updateA_other _ _ _ _ hne

/-- Witness for C5: with connections 1, 2, 3 registered and the send to 2
failing, 1 and 3 still receive the message and only 2 is removed. -/
theorem broadcast_isolation_witness :
    lookupA (broadcast_to_websockets (fun ws => ws != 2)
        [("r1", [1, 2, 3])] "r1" WsMsg.pong).1 "r1" = some [1, 3] ∧
    (broadcast_to_websockets (fun ws => ws != 2)
        [("r1", [1, 2, 3])] "r1" WsMsg.pong).2
      = [(1, WsMsg.pong), (3, WsMsg.pong)] := by
  have h := broadcast_isolation (fun ws => ws != 2) [("r1", [1, 2, 3])] "r1"
    WsMsg.pong [1, 2, 3] rfl (by decide)
  refine ⟨?_, ?_⟩
  · rw [h.1]; rfl
  · rw [h.2.1]; rfl

/-- Counterexample for C6: a new connection for a `run_id` that has no job
record receives no `initial_state` message at all, refuting "for every new
connection accepted on /ws/{run_id}, the server immediately sends exactly
one initial_state message". -/
theorem websocket_initial_state_counterexample :
    (websocket_endpoint_connect [] [] "r1" 0).2 = [] := rfl

/-- C6 (amended): for every new connection whose `run_id` is a key of
`runs`, exactly one `initial_state` message is sent, carrying the record's
state, progress and logs as they are at connect time; in particular a
subscriber connecting when progress is already at least 0.4 receives an
`initial_state` whose progress is at least 0.4. -/
theorem websocket_initial_state (runs : List (String × RunRecord))
    (active : List (String × List Conn)) (run_id : String) (ws : Conn)
    (r : RunRecord) (hr : lookupA runs run_id = some r) :
    (websocket_endpoint_connect runs active run_id ws).2
        = [WsMsg.initial_state r.state r.progress r.logs] ∧
    ((2/5 : ℚ) ≤ r.progress →
      ∀ st p lgs, (websocket_endpoint_connect runs active run_id ws).2
          = [WsMsg.initial_state st p lgs] → (2/5 : ℚ) ≤ p) := by
  have h : (websocket_endpoint_connect runs active run_id ws).2
      = [WsMsg.initial_state r.state r.progress r.logs] := by
    simp only [websocket_endpoint_connect, hr]
  refine ⟨h, ?_⟩
  intro hp st p lgs heq
  rw [h] at heq
  simp only [List.cons.injEq, WsMsg.initial_state.injEq, and_true] at heq
  exact heq.2.1 ▸ hp

/-- Witness for C6 (amended): connecting while a record is at progress 2/5
yields exactly one `initial_state` carrying that progress. -/
theorem websocket_initial_state_witness :
    (websocket_endpoint_connect [("r1", ⟨"ASSET_GENERATION", 2/5, []⟩)]
        [] "r1" 0).2
      = [WsMsg.initial_state "ASSET_GENERATION" (2/5 : ℚ) []] := by
  have h := websocket_initial_state [("r1", ⟨"ASSET_GENERATION", 2/5, []⟩)]
    [] "r1" 0 ⟨"ASSET_GENERATION", 2/5, []⟩ rfl
  exact h.1

/-- C7: `publish_progress` is total and fire-and-forget at the level a
shallow embedding can express: every call appends exactly one message to
the single well-known channel, the message is tagged with the job id, and
the result depends on no subscriber state (no subscriber appears among the
inputs), so no call can raise an error into the calling stage. -/
theorem publish_fire_and_forget (bus : List (String × ProgressMsg))
    (run_id : String) (state : Option String) (progress : Option ℚ)
    (log : Option String) :
    publishToBus bus run_id state progress log
        = bus ++ [publish_progress run_id state progress log] ∧
    (publishToBus bus run_id state progress log).length = bus.length + 1 ∧
    (publish_progress run_id state progress log).1 = "autoshorts:progress" ∧
    (publish_progress run_id state progress log).2.run_id = run_id := by
  refine ⟨rfl, by simp [publishToBus], rfl, rfl⟩

/-- C9: field inclusion follows Python truthiness: `progress` is included
whenever the argument is not `None` — including 0.0 — while an
empty-string `state` or `log` is omitted and a non-empty one is included
verbatim. -/
theorem publish_truthiness (run_id : String) (state : Option String)
    (progress : Option ℚ) (log : Option String) (s : String) (hs : s ≠ "") :
    (publish_progress run_id state progress log).2.progress = progress ∧
    (publish_progress run_id state (some 0) log).2.progress = some 0 ∧
    (publish_progress run_id (some "") progress log).2.state = none ∧
    (publish_progress run_id state progress (some "")).2.log = none ∧
    (publish_progress run_id (some s) progress log).2.state = some s ∧
    (publish_progress run_id state progress (some s)).2.log = some s := by
  refine ⟨rfl, rfl, by simp [publish_progress], by simp [publish_progress],
    by simp [publish_progress, hs], by simp [publish_progress, hs]⟩

/-- Witness for C9: progress 0.0 is published, an empty state is omitted,
a non-empty log is included. -/
theorem publish_truthiness_witness :
    (publish_progress "r1" (some "") (some 0) (some "x")).2.progress
        = some 0 ∧
    (publish_progress "r1" (some "") (some 0) (some "x")).2.state = none ∧
    (publish_progress "r1" (some "") (some 0) (some "x")).2.log
        = some "x" := by
  have h := publish_truthiness "r1" (some "") (some 0) (some "x") "x"
    (by decide)
  exact ⟨h.1, h.2.2.1, h.2.2.2.2.2⟩

/-- C8: applying a progress event to a run record touches exactly the
fields the event carries: `state` and `progress` are overwritten when
present and untouched when absent; a present `log` is appended to `logs`,
an absent one leaves `logs` unchanged. -/
theorem applyEvent_frame (r : RunRecord) (d : EventData) :
    applyEvent r d =
      { state := d.state.getD r.state,
        progress := d.progress.getD r.progress,
        logs := r.logs ++ (match d.log with | some l => [l] | none => []) } := by
  rcases d with ⟨rid, st, pr, lg⟩
  cases st <;> cases pr <;> cases lg <;> simp [applyEvent]

/-- C10: `redis_listener` never creates a `runs` entry: the key set is
preserved by every message; a message whose `run_id` is not a key leaves
`runs` unchanged yet is still broadcast to the connections registered under
that id; a message carrying no `run_id` at all is ignored entirely. -/
theorem redis_listener_no_create (sendOk : Conn → Bool)
    (runs : List (String × RunRecord)) (active : List (String × List Conn))
    (d : EventData) (rid : String) (conns : List Conn)
    (hrid : d.run_id = some rid) (hne : rid ≠ "")
    (hmiss : lookupA runs rid = none)
    (hconns : lookupA active rid = some conns) :
    (∀ d2 : EventData,
        (redis_listener_step sendOk runs active d2).1.map Prod.fst
          = runs.map Prod.fst) ∧
    (redis_listener_step sendOk runs active d).1 = runs ∧
    (redis_listener_step sendOk runs active d).2.2
        = (conns.filter sendOk).map
            (fun ws =>
              (ws, WsMsg.progress rid d.state d.progress (d.log.getD ""))) ∧
    (∀ d3 : EventData, d3.run_id = none →
        redis_listener_step sendOk runs active d3 = (runs, active, [])) := by
  have hb2 : (broadcast_to_websockets sendOk active rid
      (WsMsg.progress rid d.state d.progress (d.log.getD ""))).2
      = (conns.filter sendOk).map
          (fun ws =>
            (ws, WsMsg.progress rid d.state d.progress (d.log.getD ""))) := by
    simp only [broadcast_to_websockets, hconns, sendLoop_eq]
  refine ⟨?_, ?_, ?_, ?_⟩
  · intro d2
    rcases hd2 : d2.run_id with _ | r2
    · simp [redis_listener_step, hd2]
    · by_cases hr2 : r2 = ""
      · simp [redis_listener_step, hd2, hr2]
      · simp [redis_listener_step, hd2, hr2, updateA_keys]
  · simp [redis_listener_step, hrid, hne, updateA_of_none _ _ _ hmiss]
  · simp only [redis_listener_step, hrid, if_neg hne]
    exact hb2
  · intro d3 h3
    simp [redis_listener_step, h3]

/-- Witness for C10: a message for an unknown run id leaves the empty runs
map unchanged and is still delivered to the connection registered under
that id. -/
theorem redis_listener_no_create_witness :
    (redis_listener_step (fun _ => true) [] [("r1", [5])]
        ⟨some "r1", none, some 1, none⟩).1 = [] ∧
    (redis_listener_step (fun _ => true) [] [("r1", [5])]
        ⟨some "r1", none, some 1, none⟩).2.2
      = [(5, WsMsg.progress "r1" none (some 1) "")] := by
  have h := redis_listener_no_create (fun _ => true) [] [("r1", [5])]
    ⟨some "r1", none, some 1, none⟩ "r1" [5] rfl (by decide) rfl rfl
  refine ⟨h.2.1, ?_⟩
  rw [h.2.2.1]
  rfl

end KurzStudio
